import Mathlib

/-!
BudgetBuddy — verification of the debt-tracking core.

Shallow embedding of the BudgetBuddy repository's calculation engine
(`src/utils/calculations.ts`) and Ledger Store (`src/storage/debtStorage.ts`),
with theorems settling the specification's claims about them.

Numeric values are idealised as rationals (`ℚ`); the JavaScript values
`undefined` and `NaN`, which matter for `recordPayment`'s balance update,
are modelled explicitly by the `JsVal` type. The transcendental amortization
formula is idealised over the reals with `Real.log`.
-/

namespace BudgetBuddy

/-- A JavaScript value stored in a numeric field: a finite number, `NaN`,
or `undefined`. `NaN` and `undefined` arise in `recordPayment`, which first
overwrites a debt's `balance` with `undefined` and then subtracts from it. -/
inductive JsVal where
  | num (q : ℚ)
  | nan
  | undef
deriving DecidableEq

/-- JavaScript subtraction `a - b` where `a` is a stored field value and
`b` is a finite number: `undefined - b` and `NaN - b` are both `NaN`. -/
def jsSub (a : JsVal) (b : ℚ) : JsVal :=
  match a with
  | JsVal.num q => JsVal.num (q - b)
  | _ => JsVal.nan

/-- JavaScript `Math.max(0, x)`: `NaN` if `x` is not a finite number. -/
def jsMax0 (a : JsVal) : JsVal :=
  match a with
  | JsVal.num q => JsVal.num (max 0 q)
  | _ => JsVal.nan

/-- The `Debt` record of `src/types/index.ts`. Numeric fields hold `JsVal`
so that the `undefined`/`NaN` values produced by `recordPayment` are
representable. -/
structure Debt where
  id : String
  name : String
  balance : JsVal
  originalBalance : JsVal
  rate : JsVal
  minPayment : JsVal
  createdAt : String
deriving DecidableEq

/-- The `Payment` record of `src/types/index.ts`. -/
structure Payment where
  id : String
  debtId : String
  amount : ℚ
  date : String
deriving DecidableEq

/-- A `Partial<Debt>` as passed to `updateDebt`: each field is either absent
(`none`) or present with a value — possibly present with value `undefined`,
as in `recordPayment`'s call `updateDebt(id, { balance: undefined })`. -/
structure DebtUpdate where
  id : Option String
  name : Option String
  balance : Option JsVal
  originalBalance : Option JsVal
  rate : Option JsVal
  minPayment : Option JsVal
  createdAt : Option String
deriving DecidableEq

/-- The JavaScript object spread `{ ...d, ...updates }`: every key present
in `updates` (even with value `undefined`) overrides the field of `d`. -/
def applyUpdate (d : Debt) (u : DebtUpdate) : Debt :=
  Debt.mk (u.id.getD d.id) (u.name.getD d.name) (u.balance.getD d.balance)
    (u.originalBalance.getD d.originalBalance) (u.rate.getD d.rate)
    (u.minPayment.getD d.minPayment) (u.createdAt.getD d.createdAt)

/-- The persisted contents of AsyncStorage relevant to the Ledger Store:
the debts collection and the payments collection, modelled at the level of
parsed values (each write stores `JSON.stringify` of the array and each read
parses it back). -/
structure StoreState where
  debts : List Debt
  payments : List Payment
deriving DecidableEq

/-- Function `addDebt` of `src/storage/debtStorage.ts`: reads the stored debts,
pushes the given (complete) debt, saves, and returns the updated array. -/
def addDebt (st : StoreState) (debt : Debt) : StoreState × List Debt :=
  let debts := st.debts ++ [debt]
  (StoreState.mk debts st.payments, debts)

/-- Function `deleteDebt` of `src/storage/debtStorage.ts`: filters out entries whose
`id` matches, saves, and returns the filtered array. -/
def deleteDebt (st : StoreState) (id : String) : StoreState × List Debt :=
  let filtered := st.debts.filter (fun d => d.id != id)
  (StoreState.mk filtered st.payments, filtered)

/-- Function `updateDebt` of `src/storage/debtStorage.ts`: maps over the stored
debts, merging the partial update into every entry whose `id` matches,
saves, and returns the updated array. -/
def updateDebt (st : StoreState) (id : String) (u : DebtUpdate) :
    StoreState × List Debt :=
  let updated := st.debts.map (fun d => if d.id = id then applyUpdate d u else d)
  (StoreState.mk updated st.payments, updated)

/-- The partial update `{ balance: undefined as any }` that `recordPayment`
passes to `updateDebt`. -/
def balanceUndefinedUpdate : DebtUpdate :=
  DebtUpdate.mk none none (some JsVal.undef) none none none none

/-- Function `recordPayment` of `src/storage/debtStorage.ts`: appends the payment to
the payment ledger and saves it; calls `updateDebt(payment.debtId,
{ balance: undefined })`; then maps over the returned debts, setting the
matched debt's balance to `Math.max(0, d.balance - payment.amount)` (where
`d.balance` is the value left by the `updateDebt` call); saves and returns
both collections (the returned collections are the final stored state). -/
def recordPayment (st : StoreState) (payment : Payment) : StoreState :=
  let payments := st.payments ++ [payment]
  let st1 := StoreState.mk st.debts payments
  let upd := updateDebt st1 payment.debtId balanceUndefinedUpdate
  let recalculated := upd.2.map (fun d =>
    if d.id = payment.debtId then
      Debt.mk d.id d.name (jsMax0 (jsSub d.balance payment.amount))
        d.originalBalance d.rate d.minPayment d.createdAt
    else d)
  StoreState.mk recalculated payments

/-- The `NewDebtInput` type of `src/types/index.ts`: a debt without `id`
and `createdAt`. -/
structure NewDebtInput where
  name : String
  balance : JsVal
  originalBalance : JsVal
  rate : JsVal
  minPayment : JsVal
deriving DecidableEq

/-- The debt constructed by `handleAddDebt` in
`src/screens/DebtTrackerScreen.tsx`: `{ ...input, id: uuidv4(),
createdAt: new Date().toISOString() }`, with the generated id and timestamp
passed in explicitly here. -/
def mkDebtFromInput (input : NewDebtInput) (freshId now : String) : Debt :=
  Debt.mk freshId input.name input.balance input.originalBalance input.rate
    input.minPayment now

/-- Function `handleAddDebt` of `src/screens/DebtTrackerScreen.tsx`: builds the new
debt from the form input plus a generated id and timestamp, appends it to
the previous list, and persists that list via `saveDebts`. -/
def handleAddDebt (prev : List Debt) (input : NewDebtInput)
    (freshId now : String) : List Debt :=
  prev ++ [mkDebtFromInput input freshId now]

/-- Function `getDebts` of `src/storage/debtStorage.ts` at the raw-store level:
`raw ? JSON.parse(raw) : []`. `raw` is the value under the debts key
(`none` when absent); `parse` stands for `JSON.parse` (whose failure is a
thrown error, modelled by `Except.error`). A falsy `raw` — absent **or**
the empty string — yields `[]` without parsing. -/
def getDebts (parse : String → Except String (List Debt))
    (raw : Option String) : Except String (List Debt) :=
  match raw with
  | none => Except.ok []
  | some s => if s = "" then Except.ok [] else parse s

/-- Function `getPayments` of `src/storage/debtStorage.ts` at the raw-store level:
`raw ? JSON.parse(raw) : []`, identically to `getDebts`. -/
def getPayments (parse : String → Except String (List Payment))
    (raw : Option String) : Except String (List Payment) :=
  match raw with
  | none => Except.ok []
  | some s => if s = "" then Except.ok [] else parse s

/-- A debt whose balance and original balance are finite numbers with
`0 ≤ balance ≤ originalBalance` (the spec's per-debt invariant). -/
def debtOK (d : Debt) : Bool :=
  match d.balance, d.originalBalance with
  | JsVal.num qb, JsVal.num qo => decide (0 ≤ qb) && decide (qb ≤ qo)
  | _, _ => false

/-! ## Calculation engine (`src/utils/calculations.ts`) -/

/-- Result of `calcMonthsToPayoff`: a month count, or `Infinity`. -/
inductive PayoffResult where
  | months (n : ℤ)
  | never
deriving DecidableEq

/-- Function `calcMonthsToPayoff` of `src/utils/calculations.ts`, idealised over
exact arithmetic: rational inputs, `Real.log` for `Math.log`, `Int.ceil`
for `Math.ceil`. Branches in source order: `balance <= 0` gives `0`;
`monthlyPayment <= 0` gives `Infinity`; zero monthly rate gives
`ceil(balance / monthlyPayment)`; `monthlyPayment <= balance * monthlyRate`
gives `Infinity`; otherwise the closed amortization formula. -/
noncomputable def calcMonthsToPayoff (balance annualRate monthlyPayment : ℚ) :
    PayoffResult :=
  if balance ≤ 0 then PayoffResult.months 0
  else if monthlyPayment ≤ 0 then PayoffResult.never
  else
    let monthlyRate : ℚ := annualRate / 100 / 12
    if monthlyRate = 0 then PayoffResult.months ⌈balance / monthlyPayment⌉
    else if monthlyPayment ≤ balance * monthlyRate then PayoffResult.never
    else
      PayoffResult.months
        ⌈-Real.log (1 - (balance : ℝ) * (monthlyRate : ℝ) / (monthlyPayment : ℝ)) /
          Real.log (1 + (monthlyRate : ℝ))⌉

/-- The spec's description of `monthsToPayoff`, written from the claim's
words: 0 when `balance ≤ 0`; "never" when `monthlyPayment ≤ 0`;
`ceil(balance / monthlyPayment)` when the monthly rate is zero; "never"
when the monthly rate is positive and the payment does not exceed the
accruing interest; otherwise the amortization closed form, rounded up. -/
noncomputable def monthsToPayoffSpec (balance annualRate monthlyPayment : ℚ) :
    PayoffResult :=
  if balance ≤ 0 then PayoffResult.months 0
  else if monthlyPayment ≤ 0 then PayoffResult.never
  else
    let monthlyRate : ℚ := annualRate / 100 / 12
    if monthlyRate = 0 then PayoffResult.months ⌈balance / monthlyPayment⌉
    else if 0 < monthlyRate ∧ monthlyPayment ≤ balance * monthlyRate then
      PayoffResult.never
    else
      PayoffResult.months
        ⌈-Real.log (1 - (balance : ℝ) * (monthlyRate : ℝ) / (monthlyPayment : ℝ)) /
          Real.log (1 + (monthlyRate : ℝ))⌉

/-- One row of the amortization schedule returned by
`generatePayoffSchedule`. -/
structure ScheduleEntry where
  month : ℕ
  balance : ℚ
  interestPaid : ℚ
  principalPaid : ℚ
deriving DecidableEq

/-- The `while (remaining > 0 && month < 600)` loop of
`generatePayoffSchedule`, with `fuel = 600 - month` counting the remaining
iterations and `month` the last pushed month number. Each iteration accrues
`interest = remaining * monthlyRate`, takes
`principal = min(monthlyPayment - interest, remaining)`, breaks before
appending when `principal ≤ 0`, clamps the new remaining balance at 0, and
pushes the row. -/
def scheduleGo (monthlyRate monthlyPayment : ℚ) :
    ℕ → ℚ → ℕ → List ScheduleEntry
  | 0, _, _ => []
  | fuel + 1, remaining, month =>
    if 0 < remaining then
      let interest := remaining * monthlyRate
      let principal := min (monthlyPayment - interest) remaining
      if principal ≤ 0 then []
      else
        let remaining' := max 0 (remaining - principal)
        ScheduleEntry.mk (month + 1) remaining' interest principal ::
          scheduleGo monthlyRate monthlyPayment fuel remaining' (month + 1)
    else []

/-- Function `generatePayoffSchedule` of `src/utils/calculations.ts`: runs the loop
from the starting balance with `month = 0` and the 600-iteration cap. -/
def generatePayoffSchedule (balance annualRate monthlyPayment : ℚ) :
    List ScheduleEntry :=
  scheduleGo (annualRate / 100 / 12) monthlyPayment 600 balance 0

/-- Function `calcInvestmentGrowth` of `src/utils/calculations.ts`, idealised over
exact arithmetic with `Real.rpow` for `Math.pow` (the `years` input, hence
the exponent `years * 12`, need not be an integer). -/
noncomputable def calcInvestmentGrowth
    (monthlyContribution annualReturn years : ℚ) : ℝ :=
  if monthlyContribution ≤ 0 ∨ years ≤ 0 then 0
  else
    let monthlyRate : ℚ := annualReturn / 100 / 12
    let totalMonths : ℚ := years * 12
    if monthlyRate = 0 then ((monthlyContribution * totalMonths : ℚ) : ℝ)
    else
      (monthlyContribution : ℝ) *
        (((1 + (monthlyRate : ℝ)) ^ ((totalMonths : ℚ) : ℝ) - 1) /
          (monthlyRate : ℝ))

/-- The spec's description of `investmentGrowth`, written from the claim's
words: 0 when `monthlyContribution ≤ 0` or `years ≤ 0`;
`monthlyContribution * years * 12` when the monthly rate is zero; otherwise
the future value of an ordinary annuity,
`monthlyContribution * ((1 + monthlyRate)^(years*12) - 1) / monthlyRate`. -/
noncomputable def investmentGrowthSpec
    (monthlyContribution annualReturn years : ℚ) : ℝ :=
  if monthlyContribution ≤ 0 ∨ years ≤ 0 then 0
  else
    let monthlyRate : ℚ := annualReturn / 100 / 12
    if monthlyRate = 0 then
      ((monthlyContribution : ℝ)) * (years : ℝ) * 12
    else
      (monthlyContribution : ℝ) *
        ((1 + (monthlyRate : ℝ)) ^ (((years * 12 : ℚ)) : ℝ) - 1) /
        (monthlyRate : ℝ)

/-! ## Structural lemmas about the schedule loop -/

theorem scheduleGo_length_le (mr p : ℚ) :
    ∀ (fuel : ℕ) (rem : ℚ) (month : ℕ),
      (scheduleGo mr p fuel rem month).length ≤ fuel := by
  intro fuel
  induction fuel with
  | zero => intro rem month; simp [scheduleGo]
  | succ f ih =>
    intro rem month
    simp only [scheduleGo]
    split
    · split
      · simp
      · simpa using Nat.succ_le_succ (ih _ _)
    · simp

theorem scheduleGo_map_month (mr p : ℚ) :
    ∀ (fuel : ℕ) (rem : ℚ) (month : ℕ),
      (scheduleGo mr p fuel rem month).map ScheduleEntry.month =
        List.range' (month + 1) (scheduleGo mr p fuel rem month).length := by
  intro fuel
  induction fuel with
  | zero => intro rem month; simp [scheduleGo]
  | succ f ih =>
    intro rem month
    simp only [scheduleGo]
    split
    · split
      · simp
      · simp only [List.map_cons, List.length_cons, List.range'_succ]
        rw [ih]
    · simp

theorem scheduleGo_principal_pos (mr p : ℚ) :
    ∀ (fuel : ℕ) (rem : ℚ) (month : ℕ),
      (scheduleGo mr p fuel rem month).all
        (fun e => decide (0 < e.principalPaid)) = true := by
  intro fuel
  induction fuel with
  | zero => intro rem month; simp [scheduleGo]
  | succ f ih =>
    intro rem month
    simp only [scheduleGo]
    split
    · split
      · simp
      · rename_i hpos hprin
        simp only [List.all_cons, Bool.and_eq_true, decide_eq_true_eq]
        exact ⟨by simpa using lt_of_not_le hprin, ih _ _⟩
    · simp

theorem scheduleGo_balance_nonneg (mr p : ℚ) :
    ∀ (fuel : ℕ) (rem : ℚ) (month : ℕ),
      (scheduleGo mr p fuel rem month).all
        (fun e => decide (0 ≤ e.balance)) = true := by
  intro fuel
  induction fuel with
  | zero => intro rem month; simp [scheduleGo]
  | succ f ih =>
    intro rem month
    simp only [scheduleGo]
    split
    · split
      · simp
      · simp only [List.all_cons, Bool.and_eq_true, decide_eq_true_eq]
        exact ⟨le_max_left 0 _, ih _ _⟩
    · simp

theorem scheduleGo_nil_of_nonpos (mr p : ℚ) (fuel : ℕ) (rem : ℚ) (month : ℕ)
    (h : rem ≤ 0) : scheduleGo mr p fuel rem month = [] := by
  cases fuel with
  | zero => simp [scheduleGo]
  | succ f => simp [scheduleGo, not_lt.mpr h]

/-- With zero monthly rate, payment 1 and a natural-number starting balance
`m ≥ fuel`, the loop runs for exactly `fuel` months, paying 1 of principal
each month, leaving balance `m - j - 1` after the `j`-th row. -/
theorem scheduleGo_unit_zero_rate :
    ∀ (fuel m month : ℕ), fuel ≤ m →
      scheduleGo 0 1 fuel ((m : ℕ) : ℚ) month =
        (List.range fuel).map (fun j =>
          ScheduleEntry.mk (month + 1 + j) (((m - j - 1 : ℕ) : ℚ)) 0 1) := by
  intro fuel
  induction fuel with
  | zero => intro m month _; simp [scheduleGo]
  | succ f ih =>
    intro m month h
    cases m with
    | zero => omega
    | succ k =>
      have hk : f ≤ k := by omega
      have hpos : (0 : ℚ) < ((Nat.succ k : ℕ) : ℚ) := by
        exact_mod_cast Nat.succ_pos k
      have hone : (1 : ℚ) ≤ ((Nat.succ k : ℕ) : ℚ) := by
        exact_mod_cast Nat.succ_le_succ (Nat.zero_le k)
      simp only [scheduleGo, if_pos hpos, mul_zero, sub_zero,
        min_eq_left hone]
      rw [if_neg (by norm_num)]
      have hmax : max 0 (((Nat.succ k : ℕ) : ℚ) - 1) = ((k : ℕ) : ℚ) := by
        have : ((Nat.succ k : ℕ) : ℚ) - 1 = ((k : ℕ) : ℚ) := by push_cast; ring
        rw [this]
        exact max_eq_right (Nat.cast_nonneg k)
      rw [hmax, ih k (month + 1) hk, List.range_succ_eq_map, List.map_cons,
        List.map_map]
      congr 1
      simp only [List.map_inj_left, Function.comp_apply, ScheduleEntry.mk.injEq]
      intro j hj
      refine ⟨by omega, ?_, trivial, trivial⟩
      congr 1
      omega

/-- **C6.** For every input, `payoffSchedule` yields at most 600 rows; its
`month` fields are exactly `1, 2, …, length` (strictly increasing, no
gaps); and every appended row has principal portion `> 0` (the loop breaks
before appending as soon as the principal portion is `≤ 0`). -/
theorem payoffSchedule_shape (balance annualRate monthlyPayment : ℚ) :
    (generatePayoffSchedule balance annualRate monthlyPayment).length ≤ 600 ∧
    (generatePayoffSchedule balance annualRate monthlyPayment).map
        ScheduleEntry.month =
      List.range' 1
        (generatePayoffSchedule balance annualRate monthlyPayment).length ∧
    (generatePayoffSchedule balance annualRate monthlyPayment).all
        (fun e => decide (0 < e.principalPaid)) = true := by
  refine ⟨scheduleGo_length_le _ _ 600 _ 0, ?_, scheduleGo_principal_pos _ _ 600 _ 0⟩
  simpa using scheduleGo_map_month (annualRate / 100 / 12) monthlyPayment 600 balance 0

/-- **C10.** `payoffSchedule` returns the empty sequence whenever the
starting balance is `≤ 0`, and every row it ever appends has a remaining
balance clamped to `≥ 0`. -/
theorem payoffSchedule_empty_and_nonneg (balance annualRate monthlyPayment : ℚ) :
    (balance ≤ 0 →
      generatePayoffSchedule balance annualRate monthlyPayment = []) ∧
    (generatePayoffSchedule balance annualRate monthlyPayment).all
      (fun e => decide (0 ≤ e.balance)) = true := by
  exact ⟨fun h => scheduleGo_nil_of_nonpos _ _ 600 _ 0 h,
    scheduleGo_balance_nonneg _ _ 600 _ 0⟩

/-- Witness for C10 at a concrete input: balance `-5` yields the empty
schedule, and the `(100, 0, 30)` schedule has only nonnegative balances. -/
theorem payoffSchedule_empty_and_nonneg_witness :
    generatePayoffSchedule (-5) 10 20 = [] ∧
    (generatePayoffSchedule 100 0 30).all
      (fun e => decide (0 ≤ e.balance)) = true :=
  ⟨(payoffSchedule_empty_and_nonneg (-5) 10 20).1 (by norm_num),
    (payoffSchedule_empty_and_nonneg 100 0 30).2⟩

/-! ## Ledger Store claims -/

/-- Mapping an update-if-matching function over a list with no matching id
leaves the list unchanged. -/
theorem map_if_id (l : List Debt) (x : String) (f : Debt → Debt)
    (h : ∀ d ∈ l, d.id ≠ x) :
    l.map (fun d => if d.id = x then f d else d) = l := by
  induction l with
  | nil => rfl
  | cons a t ih =>
    simp only [List.map_cons]
    rw [if_neg (h a (List.mem_cons_self a t)),
      ih (fun d hd => h d (List.mem_cons_of_mem a hd))]

/-- **C1** (code bug, evaluated at the failing input). On a debt with
balance 100 and a matching payment of amount 30, `recordPayment` appends
exactly one payment record, but the debt's balance becomes `NaN`, not 70:
the intermediate `updateDebt(debtId, { balance: undefined })` overwrites
the balance with `undefined`, so the subsequent
`Math.max(0, d.balance - payment.amount)` computes `max(0, NaN) = NaN`. -/
theorem recordPayment_balance_nan_bug :
    recordPayment
        (StoreState.mk
          [Debt.mk "d1" "Card" (JsVal.num 100) (JsVal.num 100)
            (JsVal.num 20) (JsVal.num 25) "t0"] [])
        (Payment.mk "p1" "d1" 30 "t1") =
      StoreState.mk
        [Debt.mk "d1" "Card" JsVal.nan (JsVal.num 100)
          (JsVal.num 20) (JsVal.num 25) "t0"]
        [Payment.mk "p1" "d1" 30 "t1"] := by
  decide

/-- **C5.** A payment whose `debtId` matches no stored debt is still
appended to the payment ledger, and the debts collection is returned and
persisted unchanged. -/
theorem recordPayment_orphan (st : StoreState) (payment : Payment)
    (h : payment.debtId ∉ st.debts.map Debt.id) :
    (recordPayment st payment).payments = st.payments ++ [payment] ∧
    (recordPayment st payment).debts = st.debts := by
  have hid : ∀ d ∈ st.debts, d.id ≠ payment.debtId := by
    intro d hd heq
    exact h (heq ▸ List.mem_map_of_mem Debt.id hd)
  refine ⟨rfl, ?_⟩
  show ((st.debts.map fun d =>
      if d.id = payment.debtId then applyUpdate d balanceUndefinedUpdate
      else d).map fun d =>
      if d.id = payment.debtId then
        Debt.mk d.id d.name (jsMax0 (jsSub d.balance payment.amount))
          d.originalBalance d.rate d.minPayment d.createdAt
      else d) = st.debts
  rw [map_if_id st.debts payment.debtId _ hid,
    map_if_id st.debts payment.debtId _ hid]

/-- Witness for C5: a payment against the unknown id `"b"` leaves the
single stored debt (id `"a"`) untouched and lands in the ledger. -/
theorem recordPayment_orphan_witness :
    ("b" ∉ [Debt.mk "a" "Loan" (JsVal.num 50) (JsVal.num 100)
        (JsVal.num 5) (JsVal.num 10) "t"].map Debt.id) ∧
    (recordPayment
        (StoreState.mk
          [Debt.mk "a" "Loan" (JsVal.num 50) (JsVal.num 100)
            (JsVal.num 5) (JsVal.num 10) "t"] [])
        (Payment.mk "p9" "b" 30 "t9")).payments = [Payment.mk "p9" "b" 30 "t9"] ∧
    (recordPayment
        (StoreState.mk
          [Debt.mk "a" "Loan" (JsVal.num 50) (JsVal.num 100)
            (JsVal.num 5) (JsVal.num 10) "t"] [])
        (Payment.mk "p9" "b" 30 "t9")).debts =
      [Debt.mk "a" "Loan" (JsVal.num 50) (JsVal.num 100)
        (JsVal.num 5) (JsVal.num 10) "t"] := by
  refine ⟨by decide, ?_⟩
  exact recordPayment_orphan
    (StoreState.mk
      [Debt.mk "a" "Loan" (JsVal.num 50) (JsVal.num 100)
        (JsVal.num 5) (JsVal.num 10) "t"] [])
    (Payment.mk "p9" "b" 30 "t9") (by decide)

/-- **C3** (counterexample). A collection satisfying
`0 ≤ balance ≤ originalBalance` can leave the invariant through
`updateDebt`: updating the balance of debt `"a"` (original balance 100)
to 200 is persisted unclamped. -/
theorem updateDebt_breaks_invariant :
    ([Debt.mk "a" "Loan" (JsVal.num 50) (JsVal.num 100) (JsVal.num 5)
        (JsVal.num 10) "t"].all debtOK = true) ∧
    ((updateDebt
        (StoreState.mk
          [Debt.mk "a" "Loan" (JsVal.num 50) (JsVal.num 100) (JsVal.num 5)
            (JsVal.num 10) "t"] [])
        "a"
        (DebtUpdate.mk none none (some (JsVal.num 200)) none none none
          none)).2.all debtOK = false) := by
  decide

/-- **C3 amended.** `deleteDebt` always preserves the per-debt invariant
`0 ≤ balance ≤ originalBalance`, and `addDebt` preserves it provided the
appended debt itself satisfies it; no mutation clamps, so `updateDebt` and
`recordPayment` are not invariant-preserving in general. -/
theorem invariant_preserved_delete_add :
    (∀ (st : StoreState) (id : String), st.debts.all debtOK = true →
      ((deleteDebt st id).1).debts.all debtOK = true) ∧
    (∀ (st : StoreState) (d : Debt), st.debts.all debtOK = true →
      debtOK d = true → ((addDebt st d).1).debts.all debtOK = true) := by
  constructor
  · intro st id h
    rw [List.all_eq_true] at h ⊢
    intro d hd
    exact h d (List.mem_of_mem_filter hd)
  · intro st d h hd
    rw [List.all_eq_true] at h ⊢
    intro e he
    rcases List.mem_append.mp he with he | he
    · exact h e he
    · rcases List.mem_singleton.mp he with rfl
      exact hd

/-- Witness for the amended C3 at concrete inputs: deleting from, and
appending a well-formed debt to, a collection satisfying the invariant. -/
theorem invariant_preserved_delete_add_witness :
    ([Debt.mk "a" "Loan" (JsVal.num 50) (JsVal.num 100) (JsVal.num 5)
        (JsVal.num 10) "t"].all debtOK = true) ∧
    (debtOK (Debt.mk "b" "Card" (JsVal.num 20) (JsVal.num 80) (JsVal.num 9)
        (JsVal.num 15) "u") = true) ∧
    ((deleteDebt
        (StoreState.mk
          [Debt.mk "a" "Loan" (JsVal.num 50) (JsVal.num 100) (JsVal.num 5)
            (JsVal.num 10) "t"] []) "a").1.debts.all debtOK = true) ∧
    ((addDebt
        (StoreState.mk
          [Debt.mk "a" "Loan" (JsVal.num 50) (JsVal.num 100) (JsVal.num 5)
            (JsVal.num 10) "t"] [])
        (Debt.mk "b" "Card" (JsVal.num 20) (JsVal.num 80) (JsVal.num 9)
          (JsVal.num 15) "u")).1.debts.all debtOK = true) := by
  refine ⟨by decide, by decide, ?_, ?_⟩
  · exact invariant_preserved_delete_add.1
      (StoreState.mk
        [Debt.mk "a" "Loan" (JsVal.num 50) (JsVal.num 100) (JsVal.num 5)
          (JsVal.num 10) "t"] []) "a" (by decide)
  · exact invariant_preserved_delete_add.2
      (StoreState.mk
        [Debt.mk "a" "Loan" (JsVal.num 50) (JsVal.num 100) (JsVal.num 5)
          (JsVal.num 10) "t"] [])
      (Debt.mk "b" "Card" (JsVal.num 20) (JsVal.num 80) (JsVal.num 9)
        (JsVal.num 15) "u") (by decide) (by decide)

/-- **C7** (counterexample). The storage-layer `addDebt` does not generate
a fresh unique id: adding the same fully-built debt twice yields two
entries with the identical id `"x"`. -/
theorem addDebt_no_fresh_id :
    (addDebt
        (addDebt (StoreState.mk [] [])
          (Debt.mk "x" "n" (JsVal.num 10) (JsVal.num 10) (JsVal.num 1)
            (JsVal.num 1) "t")).1
        (Debt.mk "x" "n" (JsVal.num 10) (JsVal.num 10) (JsVal.num 1)
          (JsVal.num 1) "t")).1.debts.map Debt.id = ["x", "x"] ∧
    ¬ List.Nodup ((addDebt
        (addDebt (StoreState.mk [] [])
          (Debt.mk "x" "n" (JsVal.num 10) (JsVal.num 10) (JsVal.num 1)
            (JsVal.num 1) "t")).1
        (Debt.mk "x" "n" (JsVal.num 10) (JsVal.num 10) (JsVal.num 1)
          (JsVal.num 1) "t")).1.debts.map Debt.id) := by
  decide

/-- **C7 amended.** The storage-layer `addDebt` appends the caller-supplied
debt verbatim (its id and timestamp included), persists, and returns the
new full collection; generation of the fresh id and creation timestamp
happens in the caller `handleAddDebt`, which builds the debt from the
new-debt input together with a generated id and the current timestamp and
persists the appended collection. -/
theorem addDebt_appends_verbatim (st : StoreState) (d : Debt)
    (prev : List Debt) (input : NewDebtInput) (freshId now : String) :
    (addDebt st d).1.debts = st.debts ++ [d] ∧
    (addDebt st d).2 = st.debts ++ [d] ∧
    handleAddDebt prev input freshId now =
      prev ++ [Debt.mk freshId input.name input.balance
        input.originalBalance input.rate input.minPayment now] :=
  ⟨rfl, rfl, rfl⟩

/-- **C9** (counterexample). A persisted empty string is a present — and
malformed — payload, yet `getDebts` returns the empty collection without
consulting the parser at all: the source tests the raw value's JavaScript
truthiness, and `""` is falsy. -/
theorem getDebts_empty_string_silent :
    getDebts (fun _ => Except.error "Unexpected end of JSON input")
        (some "") = Except.ok [] ∧
    some "" ≠ (none : Option String) :=
  ⟨rfl, by decide⟩

/-- **C9 amended.** `getDebts` and `getPayments` return the empty sequence
when no value is persisted *or* when the persisted value is the empty
string; for any other persisted value they return exactly the parser's
outcome, so a parse failure propagates to the caller. -/
theorem read_contract (pd : String → Except String (List Debt))
    (pp : String → Except String (List Payment)) (raw : Option String) :
    (raw = none ∨ raw = some "" →
      getDebts pd raw = Except.ok [] ∧ getPayments pp raw = Except.ok []) ∧
    (∀ s, raw = some s → s ≠ "" →
      getDebts pd raw = pd s ∧ getPayments pp raw = pp s) := by
  constructor
  · rintro (rfl | rfl)
    · exact ⟨rfl, rfl⟩
    · exact ⟨by simp [getDebts], by simp [getPayments]⟩
  · rintro s rfl hne
    exact ⟨by simp [getDebts, hne], by simp [getPayments, hne]⟩

/-- Witness for the amended C9: an absent key reads as the empty
collection, and the concrete stored payload `"[]"` is handed to the
parser. -/
theorem read_contract_witness :
    (getDebts (fun _ => Except.ok []) none = Except.ok [] ∧
      getPayments (fun _ => Except.ok []) none = Except.ok []) ∧
    ("[]" ≠ "" ∧
      getDebts (fun _ => Except.ok []) (some "[]") =
        (fun (_ : String) => Except.ok ([] : List Debt)) "[]" ∧
      getPayments (fun _ => Except.ok []) (some "[]") =
        (fun (_ : String) => Except.ok ([] : List Payment)) "[]") := by
  refine ⟨(read_contract (fun _ => Except.ok []) (fun _ => Except.ok [])
      none).1 (Or.inl rfl), by decide, ?_⟩
  exact (read_contract (fun _ => Except.ok []) (fun _ => Except.ok [])
    (some "[]")).2 "[]" rfl (by decide)

/-! ## Closed-form formula claims -/

/-- **C2.** The source's `calcMonthsToPayoff` computes exactly the case
analysis the spec describes: 0 for a nonpositive balance; "never" for a
nonpositive payment; `ceil(balance/payment)` for a zero monthly rate;
"never" when the monthly rate is positive and the payment does not exceed
the accruing interest `balance * monthlyRate`; and otherwise the
amortization closed form `ceil(-ln(1 - B·r/P) / ln(1 + r))`, rounded up. -/
theorem calcMonthsToPayoff_eq_spec (balance annualRate monthlyPayment : ℚ) :
    calcMonthsToPayoff balance annualRate monthlyPayment =
      monthsToPayoffSpec balance annualRate monthlyPayment := by
  unfold calcMonthsToPayoff monthsToPayoffSpec
  by_cases h1 : balance ≤ 0
  · simp [h1]
  · by_cases h2 : monthlyPayment ≤ 0
    · simp [h1, h2]
    · simp only [if_neg h1, if_neg h2]
      by_cases h3 : annualRate / 100 / 12 = 0
      · simp [h3]
      · simp only [if_neg h3]
        by_cases h4 : monthlyPayment ≤ balance * (annualRate / 100 / 12)
        · have hb : 0 < balance := not_le.mp h1
          have hp : 0 < monthlyPayment := not_le.mp h2
          have hmr : 0 < annualRate / 100 / 12 := by
            rcases lt_trichotomy (annualRate / 100 / 12) 0 with hneg | hzero | hpos
            · exfalso
              nlinarith
            · exact absurd hzero h3
            · exact hpos
          rw [if_pos h4, if_pos ⟨hmr, h4⟩]
        · have : ¬ (0 < annualRate / 100 / 12 ∧
              monthlyPayment ≤ balance * (annualRate / 100 / 12)) :=
            fun hc => h4 hc.2
          rw [if_neg h4, if_neg this]

/-- **C8.** The source's `calcInvestmentGrowth` computes exactly the spec's
description: 0 for a nonpositive contribution or horizon;
`monthlyContribution * years * 12` for a zero monthly rate; and otherwise
the future value of an ordinary annuity with monthly compounding,
`monthlyContribution * ((1 + monthlyRate)^(years·12) − 1) / monthlyRate`. -/
theorem calcInvestmentGrowth_eq_spec
    (monthlyContribution annualReturn years : ℚ) :
    calcInvestmentGrowth monthlyContribution annualReturn years =
      investmentGrowthSpec monthlyContribution annualReturn years := by
  unfold calcInvestmentGrowth investmentGrowthSpec
  by_cases h1 : monthlyContribution ≤ 0 ∨ years ≤ 0
  · simp [h1]
  · simp only [if_neg h1]
    by_cases h2 : annualReturn / 100 / 12 = 0
    · simp only [if_pos h2]
      push_cast
      ring
    · simp only [if_neg h2]
      ring

/-! ## C4: the closed-form month count against the iterative schedule -/

/-- One month of the schedule loop's balance update in closed form:
paying `min (p − rem·mr) rem` and clamping at 0 leaves
`max (rem·(1+mr) − p) 0`. -/
def payoffStep (mr p rem : ℚ) : ℚ :=
  max (rem * (1 + mr) - p) 0

/-- The loop's balance update expression equals `payoffStep`. -/
theorem loop_update_eq_payoffStep (mr p rem : ℚ) :
    max 0 (rem - min (p - rem * mr) rem) = payoffStep mr p rem := by
  unfold payoffStep
  rcases le_total (p - rem * mr) rem with h | h
  · rw [min_eq_left h, max_comm]
    congr 1
    ring
  · rw [min_eq_right h, sub_self, max_self]
    have hle : rem * (1 + mr) - p ≤ 0 := by nlinarith
    exact (max_eq_right hle).symm

/-- The unclamped linear recurrence `u₀ = b`, `u_{k+1} = u_k·(1+mr) − p`. -/
def unclampedBal (mr p b : ℚ) : ℕ → ℚ
  | 0 => b
  | k + 1 => unclampedBal mr p b k * (1 + mr) - p

/-- The clamped iterates of `payoffStep` starting from `b`: the remaining
balance after `k` months of the schedule loop. -/
def clampedBal (mr p b : ℚ) : ℕ → ℚ
  | 0 => b
  | k + 1 => payoffStep mr p (clampedBal mr p b k)

theorem payoffStep_max (mr p x : ℚ) (hmr : 0 ≤ mr) (hp : 0 < p) :
    payoffStep mr p (max x 0) = max (x * (1 + mr) - p) 0 := by
  rcases le_total 0 x with h | h
  · rw [max_eq_left h]
    rfl
  · rw [max_eq_right h]
    unfold payoffStep
    rw [zero_mul, zero_sub]
    rw [max_eq_right (by linarith : -p ≤ (0:ℚ))]
    have hx : x * (1 + mr) - p ≤ 0 := by nlinarith
    rw [max_eq_right hx]

theorem clampedBal_eq_max (mr p b : ℚ) (hmr : 0 ≤ mr) (hp : 0 < p)
    (hb : 0 ≤ b) (k : ℕ) :
    clampedBal mr p b k = max (unclampedBal mr p b k) 0 := by
  induction k with
  | zero =>
    rw [clampedBal, unclampedBal, max_eq_left hb]
  | succ n ih =>
    rw [clampedBal, unclampedBal, ih, payoffStep_max mr p _ hmr hp]

theorem clampedBal_shift (mr p b : ℚ) (k : ℕ) :
    clampedBal mr p b (k + 1) = clampedBal mr p (payoffStep mr p b) k := by
  induction k with
  | zero => rfl
  | succ n ih =>
    show payoffStep mr p (clampedBal mr p b (n + 1)) = _
    rw [ih]
    rfl

/-- If the clamped balance reaches 0 within `k ≤ fuel` months, the schedule
loop appends at least one and at most `k` rows and its last row's balance
is exactly 0. -/
theorem scheduleGo_reaches_zero (mr p : ℚ) (hmr : 0 ≤ mr) (hp : 0 < p) :
    ∀ (k fuel month : ℕ) (rem : ℚ), 0 < rem → rem * mr < p →
      k ≤ fuel → clampedBal mr p rem k = 0 →
      0 < (scheduleGo mr p fuel rem month).length ∧
      (scheduleGo mr p fuel rem month).length ≤ k ∧
      ((scheduleGo mr p fuel rem month).map ScheduleEntry.balance).getLast?
        = some 0 := by
  intro k
  induction k with
  | zero =>
    intro fuel month rem hrem _ _ hz
    rw [clampedBal] at hz
    exact absurd hz (ne_of_gt hrem)
  | succ n ih =>
    intro fuel month rem hrem hcov hk hz
    obtain ⟨f, rfl⟩ : ∃ f, fuel = f + 1 := ⟨fuel - 1, by omega⟩
    have hprin_pos : 0 < min (p - rem * mr) rem := lt_min (by linarith) hrem
    simp only [scheduleGo, if_pos hrem, if_neg (not_le.mpr hprin_pos)]
    rw [loop_update_eq_payoffStep]
    have hz' : clampedBal mr p (payoffStep mr p rem) n = 0 := by
      rw [← clampedBal_shift]
      exact hz
    have hstep_nonneg : 0 ≤ payoffStep mr p rem := le_max_right _ _
    rcases lt_or_eq_of_le hstep_nonneg with hpos' | hzero'
    · have hlt : payoffStep mr p rem < rem := by
        apply max_lt ?_ hrem
        nlinarith
      have hcov' : payoffStep mr p rem * mr < p :=
        lt_of_le_of_lt (mul_le_mul_of_nonneg_right hlt.le hmr) hcov
      obtain ⟨hlen_pos, hlen_le, hlast⟩ :=
        ih f (month + 1) (payoffStep mr p rem) hpos' hcov' (by omega) hz'
      obtain ⟨e, t, ht⟩ : ∃ e t,
          scheduleGo mr p f (payoffStep mr p rem) (month + 1) = e :: t := by
        cases hcase : scheduleGo mr p f (payoffStep mr p rem) (month + 1) with
        | nil => rw [hcase] at hlen_pos; simp at hlen_pos
        | cons e t => exact ⟨e, t, rfl⟩
      refine ⟨by simp, ?_, ?_⟩
      · rw [List.length_cons]
        omega
      · rw [ht, List.map_cons, List.map_cons, List.getLast?_cons_cons]
        rw [ht, List.map_cons] at hlast
        exact hlast
    · rw [← hzero', scheduleGo_nil_of_nonpos mr p f 0 (month + 1) le_rfl]
      exact ⟨by simp, by simp, by simp⟩

/-- With zero monthly rate the unclamped balance after `k` months is
`b − k·p`. -/
theorem unclampedBal_zero_rate (p b : ℚ) (k : ℕ) :
    unclampedBal 0 p b k = b - k * p := by
  induction k with
  | zero => rw [unclampedBal]; push_cast; ring
  | succ n ih => rw [unclampedBal, ih]; push_cast; ring

/-- Closed form of the unclamped recurrence over the reals for a nonzero
monthly rate. -/
theorem unclampedBal_closed_form (mr p b : ℚ) (hmr : mr ≠ 0) (k : ℕ) :
    (unclampedBal mr p b k : ℝ) =
      ((b : ℝ) - (p : ℝ) / (mr : ℝ)) * (1 + (mr : ℝ)) ^ k +
        (p : ℝ) / (mr : ℝ) := by
  have hmr' : (mr : ℝ) ≠ 0 := by exact_mod_cast hmr
  induction k with
  | zero =>
    rw [unclampedBal, pow_zero]
    field_simp
  | succ n ih =>
    rw [unclampedBal]
    push_cast
    rw [ih]
    field_simp
    ring

/-- With zero monthly rate the unclamped balance is nonpositive once
`m ≥ b / p` months have elapsed. -/
theorem unclampedBal_nonpos_zero_rate (p b : ℚ) (hp : 0 < p) (m : ℕ)
    (hm : b / p ≤ (m : ℚ)) : unclampedBal 0 p b m ≤ 0 := by
  rw [unclampedBal_zero_rate]
  rw [div_le_iff₀ hp] at hm
  linarith

/-- For a positive monthly rate with the payment exceeding the accruing
interest, the unclamped balance is nonpositive once the amortization
formula's month count has elapsed. -/
theorem unclampedBal_nonpos_pos_rate (mr p b : ℚ) (hmr : 0 < mr)
    (hb : 0 < b) (hcov : b * mr < p) (m : ℕ)
    (hm : -Real.log (1 - (b : ℝ) * (mr : ℝ) / (p : ℝ)) /
        Real.log (1 + (mr : ℝ)) ≤ (m : ℝ)) :
    unclampedBal mr p b m ≤ 0 := by
  have hMR : (0 : ℝ) < (mr : ℝ) := by exact_mod_cast hmr
  have hB : (0 : ℝ) < (b : ℝ) := by exact_mod_cast hb
  have hpq : 0 < p := lt_trans (mul_pos hb hmr) hcov
  have hP : (0 : ℝ) < (p : ℝ) := by exact_mod_cast hpq
  have hcovR : (b : ℝ) * (mr : ℝ) < (p : ℝ) := by exact_mod_cast hcov
  have hA_pos : 0 < 1 - (b : ℝ) * (mr : ℝ) / (p : ℝ) := by
    rw [sub_pos]
    exact (div_lt_one hP).mpr hcovR
  have hlog1 : 0 < Real.log (1 + (mr : ℝ)) := Real.log_pos (by linarith)
  have h1 : -Real.log (1 - (b : ℝ) * (mr : ℝ) / (p : ℝ)) ≤
      (m : ℝ) * Real.log (1 + (mr : ℝ)) := by
    rw [div_le_iff₀ hlog1] at hm
    exact hm
  have h2 : (1 - (b : ℝ) * (mr : ℝ) / (p : ℝ))⁻¹ ≤ (1 + (mr : ℝ)) ^ m := by
    have e1 : ((1 + (mr : ℝ)) ^ m : ℝ) =
        Real.exp ((m : ℝ) * Real.log (1 + (mr : ℝ))) := by
      rw [Real.exp_nat_mul, Real.exp_log (by linarith : (0:ℝ) < 1 + (mr : ℝ))]
    have e2 : (1 - (b : ℝ) * (mr : ℝ) / (p : ℝ))⁻¹ =
        Real.exp (-Real.log (1 - (b : ℝ) * (mr : ℝ) / (p : ℝ))) := by
      rw [Real.exp_neg, Real.exp_log hA_pos]
    rw [e1, e2]
    exact Real.exp_le_exp.mpr h1
  have hneg : (b : ℝ) - (p : ℝ) / (mr : ℝ) < 0 := by
    rw [sub_neg]
    exact (lt_div_iff₀ hMR).mpr hcovR
  have hPB : (0 : ℝ) < (p : ℝ) - (b : ℝ) * (mr : ℝ) := by linarith
  have hAinv : (1 - (b : ℝ) * (mr : ℝ) / (p : ℝ))⁻¹ =
      (p : ℝ) / ((p : ℝ) - (b : ℝ) * (mr : ℝ)) := by
    rw [show (1 - (b : ℝ) * (mr : ℝ) / (p : ℝ)) =
        ((p : ℝ) - (b : ℝ) * (mr : ℝ)) / (p : ℝ) by field_simp, inv_div]
  rw [hAinv] at h2
  have hzero : ((b : ℝ) - (p : ℝ) / (mr : ℝ)) *
      ((p : ℝ) / ((p : ℝ) - (b : ℝ) * (mr : ℝ))) + (p : ℝ) / (mr : ℝ) = 0 := by
    field_simp
    ring
  have hmono : ((b : ℝ) - (p : ℝ) / (mr : ℝ)) * (1 + (mr : ℝ)) ^ m ≤
      ((b : ℝ) - (p : ℝ) / (mr : ℝ)) *
        ((p : ℝ) / ((p : ℝ) - (b : ℝ) * (mr : ℝ))) :=
    mul_le_mul_of_nonpos_left h2 hneg.le
  have key : (unclampedBal mr p b m : ℝ) ≤ 0 := by
    rw [unclampedBal_closed_form mr p b (ne_of_gt hmr) m]
    linarith
  exact_mod_cast key

/-- **C4 amended.** For `balance > 0`, `rate ≥ 0`, `payment > 0` with
`payment > balance·rate/12/100`, `monthsToPayoff` returns a finite positive
integer `n`; and provided `n ≤ 600` (the schedule's hard iteration cap),
the iterative `payoffSchedule` drives the remaining balance to exactly 0 at
or before month `n`. (When `n > 600` the schedule is truncated at 600 rows
before reaching zero.) -/
theorem monthsToPayoff_schedule_agree (b r p : ℚ) (hb : 0 < b) (hr : 0 ≤ r)
    (hp : 0 < p) (hcov : b * (r / 100 / 12) < p) :
    ∃ n : ℤ, calcMonthsToPayoff b r p = PayoffResult.months n ∧ 0 < n ∧
      (n ≤ 600 →
        0 < (generatePayoffSchedule b r p).length ∧
        ((generatePayoffSchedule b r p).length : ℤ) ≤ n ∧
        ((generatePayoffSchedule b r p).map ScheduleEntry.balance).getLast?
          = some 0) := by
  have hmr0 : 0 ≤ r / 100 / 12 := by positivity
  simp only [calcMonthsToPayoff, generatePayoffSchedule, if_neg (not_le.mpr hb),
    if_neg (not_le.mpr hp)]
  by_cases hmr : r / 100 / 12 = 0
  · refine ⟨⌈b / p⌉, by rw [if_pos hmr], Int.ceil_pos.mpr (div_pos hb hp), ?_⟩
    intro h600
    have hnn : 0 ≤ ⌈b / p⌉ := le_of_lt (Int.ceil_pos.mpr (div_pos hb hp))
    have htn : b / p ≤ ((⌈b / p⌉.toNat : ℕ) : ℚ) := by
      have hge := Int.le_ceil (b / p)
      have hcast : ((⌈b / p⌉.toNat : ℕ) : ℚ) = ((⌈b / p⌉ : ℤ) : ℚ) := by
        exact_mod_cast Int.toNat_of_nonneg hnn
      rw [hcast]
      exact hge
    have hu : unclampedBal (r / 100 / 12) p b ⌈b / p⌉.toNat ≤ 0 := by
      rw [hmr]
      exact unclampedBal_nonpos_zero_rate p b hp _ htn
    have hz : clampedBal (r / 100 / 12) p b ⌈b / p⌉.toNat = 0 := by
      rw [clampedBal_eq_max _ _ _ hmr0 hp hb.le, max_eq_right hu]
    have hk600 : ⌈b / p⌉.toNat ≤ 600 := by omega
    obtain ⟨h1, h2, h3⟩ := scheduleGo_reaches_zero (r / 100 / 12) p hmr0 hp
      ⌈b / p⌉.toNat 600 0 b hb hcov hk600 hz
    exact ⟨h1, by omega, h3⟩
  · have hmr_pos : 0 < r / 100 / 12 := lt_of_le_of_ne hmr0 (Ne.symm hmr)
    have hB : (0 : ℝ) < (b : ℝ) := by exact_mod_cast hb
    have hMR : (0 : ℝ) < ((r / 100 / 12 : ℚ) : ℝ) := by exact_mod_cast hmr_pos
    have hP : (0 : ℝ) < (p : ℝ) := by exact_mod_cast hp
    have hcovR : (b : ℝ) * ((r / 100 / 12 : ℚ) : ℝ) < (p : ℝ) := by
      exact_mod_cast hcov
    have hA_pos : 0 < 1 - (b : ℝ) * ((r / 100 / 12 : ℚ) : ℝ) / (p : ℝ) := by
      rw [sub_pos]
      exact (div_lt_one hP).mpr hcovR
    have hA_lt1 : 1 - (b : ℝ) * ((r / 100 / 12 : ℚ) : ℝ) / (p : ℝ) < 1 := by
      have : 0 < (b : ℝ) * ((r / 100 / 12 : ℚ) : ℝ) / (p : ℝ) :=
        div_pos (mul_pos hB hMR) hP
      linarith
    have hX_pos : 0 <
        -Real.log (1 - (b : ℝ) * ((r / 100 / 12 : ℚ) : ℝ) / (p : ℝ)) /
          Real.log (1 + ((r / 100 / 12 : ℚ) : ℝ)) :=
      div_pos (neg_pos.mpr (Real.log_neg hA_pos hA_lt1))
        (Real.log_pos (by linarith))
    refine ⟨⌈-Real.log (1 - (b : ℝ) * ((r / 100 / 12 : ℚ) : ℝ) / (p : ℝ)) /
        Real.log (1 + ((r / 100 / 12 : ℚ) : ℝ))⌉,
      by rw [if_neg hmr, if_neg (not_le.mpr hcov)],
      Int.ceil_pos.mpr hX_pos, ?_⟩
    intro h600
    have hnn : 0 ≤
        ⌈-Real.log (1 - (b : ℝ) * ((r / 100 / 12 : ℚ) : ℝ) / (p : ℝ)) /
          Real.log (1 + ((r / 100 / 12 : ℚ) : ℝ))⌉ :=
      le_of_lt (Int.ceil_pos.mpr hX_pos)
    have htn :
        -Real.log (1 - (b : ℝ) * ((r / 100 / 12 : ℚ) : ℝ) / (p : ℝ)) /
            Real.log (1 + ((r / 100 / 12 : ℚ) : ℝ)) ≤
          ((⌈-Real.log (1 - (b : ℝ) * ((r / 100 / 12 : ℚ) : ℝ) / (p : ℝ)) /
            Real.log (1 + ((r / 100 / 12 : ℚ) : ℝ))⌉.toNat : ℕ) : ℝ) := by
      have hge := Int.le_ceil
        (-Real.log (1 - (b : ℝ) * ((r / 100 / 12 : ℚ) : ℝ) / (p : ℝ)) /
          Real.log (1 + ((r / 100 / 12 : ℚ) : ℝ)))
      have hcast :
          ((⌈-Real.log (1 - (b : ℝ) * ((r / 100 / 12 : ℚ) : ℝ) / (p : ℝ)) /
              Real.log (1 + ((r / 100 / 12 : ℚ) : ℝ))⌉.toNat : ℕ) : ℝ) =
            ((⌈-Real.log (1 - (b : ℝ) * ((r / 100 / 12 : ℚ) : ℝ) / (p : ℝ)) /
              Real.log (1 + ((r / 100 / 12 : ℚ) : ℝ))⌉ : ℤ) : ℝ) := by
        exact_mod_cast Int.toNat_of_nonneg hnn
      rw [hcast]
      exact hge
    have hu := unclampedBal_nonpos_pos_rate (r / 100 / 12) p b hmr_pos hb hcov
      _ htn
    have hz : clampedBal (r / 100 / 12) p b
        ⌈-Real.log (1 - (b : ℝ) * ((r / 100 / 12 : ℚ) : ℝ) / (p : ℝ)) /
          Real.log (1 + ((r / 100 / 12 : ℚ) : ℝ))⌉.toNat = 0 := by
      rw [clampedBal_eq_max _ _ _ hmr0 hp hb.le, max_eq_right hu]
    obtain ⟨h1, h2, h3⟩ := scheduleGo_reaches_zero (r / 100 / 12) p hmr0 hp
      _ 600 0 b hb hcov (by omega) hz
    exact ⟨h1, by omega, h3⟩

/-- Witness for the amended C4 at `(3, 0, 1)`: three months at zero
interest and unit payment. -/
theorem monthsToPayoff_schedule_agree_witness :
    (0 < (3 : ℚ)) ∧ (0 ≤ (0 : ℚ)) ∧ (0 < (1 : ℚ)) ∧
    ((3 : ℚ) * ((0 : ℚ) / 100 / 12) < 1) ∧
    (∃ n : ℤ, calcMonthsToPayoff 3 0 1 = PayoffResult.months n ∧ 0 < n ∧
      (n ≤ 600 →
        0 < (generatePayoffSchedule 3 0 1).length ∧
        ((generatePayoffSchedule 3 0 1).length : ℤ) ≤ n ∧
        ((generatePayoffSchedule 3 0 1).map ScheduleEntry.balance).getLast?
          = some 0)) :=
  ⟨by norm_num, le_rfl, by norm_num, by norm_num,
    monthsToPayoff_schedule_agree 3 0 1 (by norm_num) le_rfl (by norm_num)
      (by norm_num)⟩

/-- **C4** (counterexample). At balance 601, rate 0, payment 1 — inputs
satisfying the claim's hypotheses — `monthsToPayoff` reports 601 months,
but `payoffSchedule` stops at its 600-row cap with remaining balance 1:
no row ever reaches balance 0, refuting "fully zeroes the balance on or
before the reported month". -/
theorem monthsToPayoff_schedule_disagree :
    calcMonthsToPayoff 601 0 1 = PayoffResult.months 601 ∧
    (generatePayoffSchedule 601 0 1).length = 600 ∧
    ((generatePayoffSchedule 601 0 1).map ScheduleEntry.balance).getLast?
      = some 1 ∧
    ∀ e ∈ generatePayoffSchedule 601 0 1, e.balance ≠ 0 := by
  have hsch : generatePayoffSchedule 601 0 1 =
      (List.range 600).map (fun j =>
        ScheduleEntry.mk (0 + 1 + j) (((601 - j - 1 : ℕ) : ℚ)) 0 1) := by
    have h0 : (0 : ℚ) / 100 / 12 = 0 := by norm_num
    unfold generatePayoffSchedule
    rw [h0]
    have hb : (601 : ℚ) = ((601 : ℕ) : ℚ) := by norm_num
    rw [hb]
    exact scheduleGo_unit_zero_rate 600 601 0 (by omega)
  refine ⟨?_, ?_, ?_, ?_⟩
  · simp only [calcMonthsToPayoff, if_neg (by norm_num : ¬ (601 : ℚ) ≤ 0),
      if_neg (by norm_num : ¬ (1 : ℚ) ≤ 0),
      if_pos (by norm_num : (0 : ℚ) / 100 / 12 = 0)]
    norm_num
  · rw [hsch]
    simp
  · rw [hsch, List.map_map]
    have h600 : (600 : ℕ) = 599 + 1 := by norm_num
    rw [h600, List.range_succ, List.map_append]
    simp only [List.map_cons, List.map_nil]
    rw [List.getLast?_concat]
    simp only [Function.comp_apply]
    norm_num
  · rw [hsch]
    intro e he
    simp only [List.mem_map, List.mem_range] at he
    obtain ⟨j, hj, rfl⟩ := he
    simp only
    have hne : (601 - j - 1 : ℕ) ≠ 0 := by omega
    exact_mod_cast Nat.cast_ne_zero.mpr hne

end BudgetBuddy
